import Mathlib

/-!
Verification of the serialization core of the `serseg` crate: the sector/field
data model, the layout tracker, and the byte emitter.

Shallow embedding conventions:
* `usize`/`u8`..`u64` values are `Nat`; the one place the source truncates
  (`as u32` in the dynamic-pointer path, on a 64-bit host) is modelled by an
  explicit `% 2 ^ 32`.
* `anyhow::Result` is `Except SerialError`; each distinct failure message in
  the source maps to its own `SerialError` constructor.  A Rust panic from an
  unguarded division (`/` with a zero divisor) is modelled by the dedicated
  `SerialError.divByZero` outcome, since no `Err` value is ever produced there.
* The output sink (`std::io::Cursor<Vec<u8>>` behind tokio's async writers) is
  a byte list plus a cursor position; `write` zero-pads any gap between the end
  of the data and the cursor, exactly as `Cursor<Vec<u8>>` does, and
  `seek(SeekFrom::Current(n))` just advances the cursor.
* `IndexMap` is an insertion-ordered association list, `HashMap` an
  association list whose insertion point is irrelevant to lookups (keys are
  checked for duplicates by the only writer, `SerialTracker::new`).
* Rust `String` field payloads are byte lists (the UTF-8 bytes); file paths
  are plain strings and file contents are supplied by a pure `fs` function.
-/

namespace Serseg

/-- Rust `usize::checked_sub`. -/
def checkedSub (a b : Nat) : Option Nat :=
  if b ≤ a then some (a - b) else none

/-- Rust unsigned division; `none` models the divide-by-zero panic. -/
def checkedDiv (a b : Nat) : Option Nat :=
  if b = 0 then none else some (a / b)

/-- Little-endian byte list of width `w` for value `v` (low byte first). -/
def leBytes : Nat → Nat → List Nat
  | 0, _ => []
  | w + 1, v => v % 256 :: leBytes w (v / 256)

/-- Big-endian byte list of width `w` for value `v` (high byte first). -/
def beBytes (w v : Nat) : List Nat :=
  (leBytes w v).reverse

/-- The integer denoted by a little-endian byte list. -/
def leValue : List Nat → Nat
  | [] => 0
  | b :: t => b + 256 * leValue t

/-- File paths (`std::path::PathBuf`), kept abstract as strings. -/
abbrev PathStr := String

/-- First-match association-list lookup (`HashMap::get` / `IndexMap::get`). -/
def alookup {S β : Type} [DecidableEq S] : List (S × β) → S → Option β
  | [], _ => none
  | (k, v) :: t, key => if k = key then some v else alookup t key

/-- Models `indexmap::IndexMap::insert`: an existing key keeps its position in the
insertion order and only its value is replaced; a new key goes to the back. -/
def indexInsert {S α : Type} [DecidableEq S] : List (S × α) → S → α → List (S × α)
  | [], key, v => [(key, v)]
  | (k, v') :: t, key, v =>
    if k = key then (k, v) :: t else (k, v') :: indexInsert t key v

/-- The `ScaleRounding` enum from `serseg/src/field.rs` (Rust `#[default]` is `Floor`). -/
inductive ScaleRounding
  | Ceiling
  | Nearest
  | Floor
deriving DecidableEq

/-- Embeds `ScaleRounding::apply`, total version.  Rust `usize::div_ceil(v, s)` is
`v / s + 1` when `s` does not divide `v`, else `v / s`; `is_multiple_of(2)` is
`v % 2 = 0`.  Matches the source for every `scale ≥ 1` (a zero scale panics in
Rust; see `ScaleRounding.applyChecked`). -/
def ScaleRounding.apply : ScaleRounding → Nat → Nat → Nat
  | .Ceiling, value, scale => value / scale + (if value % scale = 0 then 0 else 1)
  | .Nearest, value, scale =>
    if value % 2 = 0 then value / scale else (value + 1) / scale
  | .Floor, value, scale => value / scale

/-- Embeds `ScaleRounding::apply` with the divide-by-zero panic made explicit: the
source divides by `scale` with no zero guard in every arm. -/
def ScaleRounding.applyChecked : ScaleRounding → Nat → Nat → Option Nat
  | .Ceiling, value, scale =>
    match checkedDiv value scale with
    | none => none
    | some d => some (d + (if value % scale = 0 then 0 else 1))
  | .Nearest, value, scale =>
    if value % 2 = 0 then checkedDiv value scale else checkedDiv (value + 1) scale
  | .Floor, value, scale => checkedDiv value scale

/-- The `SerialField` enum from `serseg/src/field.rs`. -/
inductive SerialField (S : Type) where
  | Dynamic (origin : S) (sector : S) (index : Nat) (scale : Nat)
      (rounding : ScaleRounding) (bytes : Nat)
  | External (path : PathStr) (size : Nat)
  | U8 (value : Nat)
  | U16 (value : Nat)
  | U24 (value : Nat)
  | U32 (value : Nat)
  | U64 (value : Nat)
  | String (value : List Nat)
  | Bytes (value : List Nat)
  | Fill (origin : S) (fill : Nat)
deriving DecidableEq

/-- One constructor per distinct failure message of the source (`anyhow`
contexts and `bail!`s), plus `divByZero` for the unguarded-division panic. -/
inductive SerialError where
  | sectorMissing
  | originMissing
  | fromAhead
  | indexOutOfRange
  | fillUnderflow
  | fillOverflow
  | pointerOverflow (bits : Nat)
  | unsupportedWidth
  | externalMissing
  | externalMismatch
  | dupKey
  | divByZero
deriving DecidableEq

/-- The `SerialSectorBuilder` struct from `serseg/src/builder.rs`. -/
structure SerialSectorBuilder (S : Type) where
  fields : List (SerialField S)
deriving DecidableEq

/-- The `SerialBuilder` struct from `serseg/src/builder.rs` (`IndexMap` as ordered list). -/
structure SerialBuilder (S : Type) where
  sectors : List (S × SerialSectorBuilder S)
deriving DecidableEq

/-- The `SerialTracker` struct from `serseg/src/tracker.rs` (`HashMap` as list). -/
structure SerialTracker (S : Type) where
  sector_offsets : List (S × Nat)
deriving DecidableEq

section Model

variable {S : Type} [DecidableEq S]

/-- Embeds `SerialTracker::offset_from_origin`. -/
def SerialTracker.offset_from_origin (self : SerialTracker S) (origin_sector : S) :
    Except SerialError Nat :=
  match alookup self.sector_offsets origin_sector with
  | none => .error .originMissing
  | some v => .ok v

/-- Embeds `SerialField::fill_size`. -/
def SerialField.fill_size (offset origin_position fill : Nat) :
    Except SerialError Nat :=
  match checkedSub offset origin_position with
  | none => .error .fillUnderflow
  | some fill_start =>
    match checkedSub fill fill_start with
    | none => .error .fillOverflow
    | some r => .ok r

/-- Embeds `SerialField::calculate_size`. -/
def SerialField.calculate_size :
    SerialField S → Nat → SerialTracker S → Except SerialError Nat
  | .String value, _, _ => .ok (value.length + 1)
  | .Dynamic _ _ _ _ _ bytes, _, _ => .ok bytes
  | .U24 _, _, _ => .ok 3
  | .U8 _, _, _ => .ok 1
  | .U16 _, _, _ => .ok 2
  | .U32 _, _, _ => .ok 4
  | .U64 _, _, _ => .ok 8
  | .Bytes value, _, _ => .ok value.length
  | .External _ size, _, _ => .ok size
  | .Fill origin fill, offset, tracker =>
    match tracker.offset_from_origin origin with
    | .error e => .error e
    | .ok origin_position => SerialField.fill_size offset origin_position fill

/-- The `offset += field.calculate_size(offset, tracker)?` accumulation loop
shared by `SerialTracker::new` and `offset_field_from_sector`. -/
def addSizes : List (SerialField S) → Nat → SerialTracker S → Except SerialError Nat
  | [], offset, _ => .ok offset
  | f :: rest, offset, tracker =>
    match f.calculate_size offset tracker with
    | .error e => .error e
    | .ok s => addSizes rest (offset + s) tracker

/-- Embeds `SerialTracker::offset_field_from_sector`.  The source iterates
`fields.iter().zip(0..to_index)`, i.e. the first `to_index` fields. -/
def SerialTracker.offset_field_from_sector (self : SerialTracker S)
    (from_sector to_sector : S) (to_index : Nat)
    (sectors : List (S × SerialSectorBuilder S)) (tracker : SerialTracker S) :
    Except SerialError Nat :=
  match alookup self.sector_offsets from_sector with
  | none => .error .sectorMissing
  | some from_offset =>
    match alookup self.sector_offsets to_sector with
    | none => .error .sectorMissing
    | some to_offset =>
      match checkedSub to_offset from_offset with
      | none => .error .fromAhead
      | some offset0 =>
        match alookup sectors to_sector with
        | none => .error .sectorMissing
        | some sb =>
          if sb.fields.length ≤ to_index ∧ to_index ≠ 0 then .error .indexOutOfRange
          else addSizes (List.take to_index sb.fields) offset0 tracker

/-- The loop body of `SerialTracker::new`: sizes each sector against the
tracker built so far (the current sector is inserted only afterwards, with a
duplicate-key check on `HashMap::insert`'s returned old value). -/
def SerialTracker.newAux :
    List (S × SerialSectorBuilder S) → List (S × Nat) → Nat →
    Except SerialError (List (S × Nat) × Nat)
  | [], acc, offset => .ok (acc, offset)
  | (sector_id, sector) :: rest, acc, offset =>
    match addSizes sector.fields offset ⟨acc⟩ with
    | .error e => .error e
    | .ok offset' =>
      match alookup acc sector_id with
      | some _ => .error .dupKey
      | none => SerialTracker.newAux rest (acc ++ [(sector_id, offset)]) offset'

/-- Embeds `SerialTracker::new`. -/
def SerialTracker.new (sectors : List (S × SerialSectorBuilder S)) :
    Except SerialError (SerialTracker S) :=
  match SerialTracker.newAux sectors [] 0 with
  | .error e => .error e
  | .ok (l, _) => .ok ⟨l⟩

end Model

/-- The output sink: `Cursor<Vec<u8>>` as byte data plus cursor position. -/
structure Sink where
  data : List Nat
  pos : Nat
deriving DecidableEq

/-- A write at the cursor: `Cursor<Vec<u8>>` zero-fills any gap between the
end of the vector and the cursor, then (over)writes from the cursor on. -/
def Sink.write (st : Sink) (bs : List Nat) : Sink :=
  { data := st.data.take st.pos ++ List.replicate (st.pos - st.data.length) 0
      ++ bs ++ st.data.drop (st.pos + bs.length),
    pos := st.pos + bs.length }

/-- Models `seek(SeekFrom::Current(amount))` with a nonnegative amount. -/
def Sink.seek (st : Sink) (amount : Nat) : Sink :=
  { st with pos := st.pos + amount }

/-- One arm of the `match_bytes!` macro in `SerialField::build`: apply the
scale rounding (unguarded division), cast `as u32` (truncating on a 64-bit
host), `try_from` into the `w`-byte unsigned type (infallible for `w = 4`),
and write the result little-endian.  `2 ^ (8 * w)` is one past the width's
unsigned max, and `8 * w` is the bit count named by the error message. -/
def writePointer (buffer : Sink) (rounding : ScaleRounding)
    (pointer scale w : Nat) : Except SerialError Sink :=
  match rounding.applyChecked pointer scale with
  | none => .error .divByZero
  | some scaled =>
    if scaled % 2 ^ 32 < 2 ^ (8 * w) then
      .ok (buffer.write (leBytes w (scaled % 2 ^ 32)))
    else .error (.pointerOverflow (8 * w))

section Build

variable {S : Type} [DecidableEq S]

/-- Embeds `SerialField::build`.  tokio's `write_u16/u32/u64` are big-endian;
`u24::to_le_bytes` and the dynamic-pointer path are little-endian.
`External` reads the file through the pure `fs` map and the source checks the
written length only after writing. -/
def SerialField.build (f : SerialField S) (buffer : Sink)
    (sectors : List (S × SerialSectorBuilder S)) (tracker : SerialTracker S)
    (fs : PathStr → Option (List Nat)) : Except SerialError Sink :=
  match f with
  | .String value => .ok ((buffer.write value).write [0])
  | .Bytes value => .ok (buffer.write value)
  | .Dynamic origin sector index scale rounding bytes =>
    match tracker.offset_field_from_sector origin sector index sectors tracker with
    | .error e => .error e
    | .ok pointer =>
      match bytes with
      | 1 => writePointer buffer rounding pointer scale 1
      | 2 => writePointer buffer rounding pointer scale 2
      | 3 => writePointer buffer rounding pointer scale 3
      | 4 => writePointer buffer rounding pointer scale 4
      | _ => .error .unsupportedWidth
  | .U8 value => .ok (buffer.write (leBytes 1 value))
  | .U16 value => .ok (buffer.write (beBytes 2 value))
  | .U24 value => .ok (buffer.write (leBytes 3 value))
  | .U32 value => .ok (buffer.write (beBytes 4 value))
  | .U64 value => .ok (buffer.write (beBytes 8 value))
  | .Fill origin fill =>
    match tracker.offset_from_origin origin with
    | .error e => .error e
    | .ok origin_position =>
      match SerialField.fill_size buffer.pos origin_position fill with
      | .error e => .error e
      | .ok fill_amount => .ok (buffer.seek fill_amount)
  | .External path size =>
    match fs path with
    | none => .error .externalMissing
    | some data =>
      if data.length = size then .ok (buffer.write data)
      else .error .externalMismatch

/-- The field loop of `SerialSectorBuilder::build`. -/
def buildFields :
    List (SerialField S) → Sink → List (S × SerialSectorBuilder S) →
    SerialTracker S → (PathStr → Option (List Nat)) → Except SerialError Sink
  | [], buffer, _, _, _ => .ok buffer
  | f :: rest, buffer, sectors, tracker, fs =>
    match f.build buffer sectors tracker fs with
    | .error e => .error e
    | .ok buffer' => buildFields rest buffer' sectors tracker fs

/-- Embeds `SerialSectorBuilder::build`. -/
def SerialSectorBuilder.build (sb : SerialSectorBuilder S) (buffer : Sink)
    (sectors : List (S × SerialSectorBuilder S)) (tracker : SerialTracker S)
    (fs : PathStr → Option (List Nat)) : Except SerialError Sink :=
  buildFields sb.fields buffer sectors tracker fs

/-- The sector loop of `SerialBuilder::build`. -/
def buildSectors :
    List (S × SerialSectorBuilder S) → Sink → List (S × SerialSectorBuilder S) →
    SerialTracker S → (PathStr → Option (List Nat)) → Except SerialError Sink
  | [], buffer, _, _, _ => .ok buffer
  | (_, sector) :: rest, buffer, sectors, tracker, fs =>
    match sector.build buffer sectors tracker fs with
    | .error e => .error e
    | .ok buffer' => buildSectors rest buffer' sectors tracker fs

/-- Embeds `SerialBuilder::build` (the final `flush` is a no-op on the model sink). -/
def SerialBuilder.build (b : SerialBuilder S) (buffer : Sink)
    (fs : PathStr → Option (List Nat)) : Except SerialError Sink :=
  match SerialTracker.new b.sectors with
  | .error e => .error e
  | .ok tracker => buildSectors b.sectors buffer b.sectors tracker fs

/-- Embeds `SerialBuilder::sector` (`IndexMap::insert`, result discarded). -/
def SerialBuilder.sector (self : SerialBuilder S) (key : S)
    (builder : SerialSectorBuilder S) : SerialBuilder S :=
  ⟨indexInsert self.sectors key builder⟩

/-- Embeds `SerialBuilder::sector_default`. -/
def SerialBuilder.sector_default (self : SerialBuilder S) (key : S) : SerialBuilder S :=
  self.sector key ⟨[]⟩

/-- Embeds `SerialSectorBuilder::field`. -/
def SerialSectorBuilder.field (self : SerialSectorBuilder S) (f : SerialField S) :
    SerialSectorBuilder S :=
  ⟨self.fields ++ [f]⟩

/-- Embeds `SerialSectorBuilder::u8`. -/
def SerialSectorBuilder.u8 (self : SerialSectorBuilder S) (value : Nat) :
    SerialSectorBuilder S :=
  self.field (.U8 value)

/-- Embeds `SerialSectorBuilder::string` (payload as UTF-8 bytes). -/
def SerialSectorBuilder.string (self : SerialSectorBuilder S) (value : List Nat) :
    SerialSectorBuilder S :=
  self.field (.String value)

/-- Embeds `SerialSectorBuilder::fill`. -/
def SerialSectorBuilder.fill (self : SerialSectorBuilder S) (origin : S) (fill : Nat) :
    SerialSectorBuilder S :=
  self.field (.Fill origin fill)

/-- Embeds `SerialSectorBuilder::dynamic_u16` (scale 1, default `Floor` rounding). -/
def SerialSectorBuilder.dynamic_u16 (self : SerialSectorBuilder S)
    (origin sector : S) (index : Nat) : SerialSectorBuilder S :=
  self.field (.Dynamic origin sector index 1 .Floor 2)

/-- Embeds `SerialSectorBuilder::dynamic_u16_chunk`: any `usize` scale is accepted
unchecked; the rounding is the default (`Floor`). -/
def SerialSectorBuilder.dynamic_u16_chunk (self : SerialSectorBuilder S)
    (origin sector : S) (index scale : Nat) : SerialSectorBuilder S :=
  self.field (.Dynamic origin sector index scale .Floor 2)

/-- Embeds `SerialSectorBuilder::dynamic_u24`. -/
def SerialSectorBuilder.dynamic_u24 (self : SerialSectorBuilder S)
    (origin sector : S) (index : Nat) : SerialSectorBuilder S :=
  self.field (.Dynamic origin sector index 1 .Floor 3)

end Build

/-- An empty file system for concrete runs that use no `External` field. -/
def fsNone : PathStr → Option (List Nat) := fun _ => none

/-- The sum-of-sizes of a whole sector map, accumulated with the running
offset against a fixed tracker: the spec-side reading of
"`sum(field.size)` over all fields". -/
def sumSizes {S : Type} [DecidableEq S] :
    List (S × SerialSectorBuilder S) → Nat → SerialTracker S → Except SerialError Nat
  | [], offset, _ => .ok offset
  | (_, sb) :: rest, offset, tracker =>
    match addSizes sb.fields offset tracker with
    | .error e => .error e
    | .ok offset' => sumSizes rest offset' tracker

/-- Spec-side cumulative sector starts: each sector starts at the running sum
of the total sizes of all preceding sectors, sized against a fixed tracker. -/
def startsList {S : Type} [DecidableEq S] :
    List (S × SerialSectorBuilder S) → Nat → SerialTracker S →
    Except SerialError (List Nat)
  | [], _, _ => .ok []
  | (_, sb) :: rest, offset, tracker =>
    match addSizes sb.fields offset tracker with
    | .error e => .error e
    | .ok offset' =>
      match startsList rest offset' tracker with
      | .error e => .error e
      | .ok tail => .ok (offset :: tail)

/-- The repository's `sector_string` test scenario, as a sanity check:
one sector holding the string "This is a test". -/
example :
    (SerialBuilder.build ⟨[((0 : Nat), ⟨[.String [84, 104, 105, 115, 32, 105, 115, 32, 97, 32, 116, 101, 115, 116]]⟩)]⟩
      ⟨[], 0⟩ fsNone) =
    .ok ⟨[84, 104, 105, 115, 32, 105, 115, 32, 97, 32, 116, 101, 115, 116, 0], 15⟩ := rfl

/-- The repository's `sector_dynamic` test scenario (strings shrunk): the two
u24 pointers into the third sector resolve to offsets 6 and 8. -/
example :
    (SerialBuilder.build
      ⟨[((0 : Nat), ⟨[.U8 255]⟩),
        (1, ⟨[.Dynamic 1 2 0 1 .Floor 3, .Dynamic 1 2 1 1 .Floor 3]⟩),
        (2, ⟨[.String [97], .String [98, 99]]⟩)]⟩
      ⟨[], 0⟩ fsNone) =
    .ok ⟨[255, 6, 0, 0, 8, 0, 0, 97, 0, 98, 99, 0], 12⟩ := rfl

/-- The repository's `sector_fill_end` test scenario: a trailing `Fill` seeks
past the end of the data, so the sink holds 5 bytes but the cursor sits at 16. -/
example :
    (SerialBuilder.build
      ⟨[((0 : Nat), ⟨[]⟩), (1, ⟨[.String [84, 101, 115, 116], .Fill 0 16]⟩)]⟩
      ⟨[], 0⟩ fsNone) =
    .ok ⟨[84, 101, 115, 116, 0], 16⟩ := rfl

/-! ### Basic lemmas about the embedding -/

/-- The total `apply` agrees with the panic-explicit version whenever the scale is
nonzero (the only situation in which the Rust source returns at all). -/
theorem applyChecked_eq (r : ScaleRounding) (v s : Nat) (h : 1 ≤ s) :
    r.applyChecked v s = some (r.apply v s) := by
  have hs : s ≠ 0 := by omega
  cases r with
  | Ceiling => simp [ScaleRounding.applyChecked, ScaleRounding.apply, checkedDiv, hs]
  | Nearest =>
    by_cases hv : v % 2 = 0 <;>
      simp [ScaleRounding.applyChecked, ScaleRounding.apply, checkedDiv, hs, hv]
  | Floor => simp [ScaleRounding.applyChecked, ScaleRounding.apply, checkedDiv, hs]

/-- Lemma: `applyChecked` returns a value exactly when the scale is nonzero. -/
theorem applyChecked_isSome (r : ScaleRounding) (v s : Nat) :
    (r.applyChecked v s).isSome ↔ 1 ≤ s := by
  rcases Nat.eq_zero_or_pos s with hs | hs
  · subst hs
    cases r with
    | Ceiling => simp [ScaleRounding.applyChecked, checkedDiv]
    | Nearest => by_cases hv : v % 2 = 0 <;> simp [ScaleRounding.applyChecked, checkedDiv, hv]
    | Floor => simp [ScaleRounding.applyChecked, checkedDiv]
  · rw [applyChecked_eq r v s hs]
    simpa using hs

/-- The ceiling arm computes the true ceiling of `v / s`: it is the least `n`
with `v ≤ s * n`. -/
theorem ceiling_char (v s n : Nat) (h : 1 ≤ s) :
    ScaleRounding.apply .Ceiling v s ≤ n ↔ v ≤ s * n := by
  have hd := Nat.div_add_mod v s
  by_cases hm : v % s = 0
  · rw [show ScaleRounding.apply .Ceiling v s = v / s by simp [ScaleRounding.apply, hm]]
    constructor
    · intro hle
      have hmul : s * (v / s) ≤ s * n := Nat.mul_le_mul_left s hle
      omega
    · intro hv
      have := Nat.div_le_div_right (c := s) hv
      rwa [Nat.mul_div_cancel_left n h] at this
  · rw [show ScaleRounding.apply .Ceiling v s = v / s + 1 by simp [ScaleRounding.apply, hm]]
    have hlt : v % s < s := Nat.mod_lt v h
    constructor
    · intro hle
      have hmul : s * (v / s + 1) ≤ s * n := Nat.mul_le_mul_left s hle
      rw [Nat.mul_succ] at hmul
      omega
    · intro hv
      by_contra hc
      have hn : n ≤ v / s := by omega
      have hmul : s * n ≤ s * (v / s) := Nat.mul_le_mul_left s hn
      omega

/-- Floor division characterization: `v / s` is the greatest `n, s * n ≤ v`. -/
theorem floor_char (v s n : Nat) (h : 1 ≤ s) :
    n ≤ v / s ↔ s * n ≤ v := by
  rw [Nat.le_div_iff_mul_le h, Nat.mul_comm]

/-- Lookup is stable under appending on the right. -/
theorem alookup_append_some {S β : Type} [DecidableEq S] {l : List (S × β)}
    (l' : List (S × β)) {k : S} {v : β} (h : alookup l k = some v) :
    alookup (l ++ l') k = some v := by
  induction l with
  | nil => simp [alookup] at h
  | cons p t ih =>
    obtain ⟨k', v'⟩ := p
    by_cases hk : k' = k
    · simp [alookup, hk] at h ⊢; exact h
    · simp [alookup, hk] at h ⊢; exact ih h

/-- A key absent on the left is looked up in the appended tail. -/
theorem alookup_append_none {S β : Type} [DecidableEq S] {l : List (S × β)}
    (l' : List (S × β)) {k : S} (h : alookup l k = none) :
    alookup (l ++ l') k = alookup l' k := by
  induction l with
  | nil => simp
  | cons p t ih =>
    obtain ⟨k', v'⟩ := p
    by_cases hk : k' = k
    · simp [alookup, hk] at h
    · simp [alookup, hk] at h ⊢; exact ih h

/-- Inserting on a present key keeps the key sequence unchanged. -/
theorem indexInsert_keys {S α : Type} [DecidableEq S] (l : List (S × α))
    (k : S) (v : α) (h : alookup l k ≠ none) :
    (indexInsert l k v).map Prod.fst = l.map Prod.fst := by
  induction l with
  | nil => simp [alookup] at h
  | cons p t ih =>
    obtain ⟨k', v'⟩ := p
    by_cases hk : k' = k
    · simp [indexInsert, hk]
    · simp [alookup, hk] at h
      simp [indexInsert, hk, ih h]

/-- After `indexInsert`, looking up the inserted key gives the new value. -/
theorem alookup_indexInsert {S α : Type} [DecidableEq S] (l : List (S × α))
    (k : S) (v : α) : alookup (indexInsert l k v) k = some v := by
  induction l with
  | nil => simp [indexInsert, alookup]
  | cons p t ih =>
    obtain ⟨k', v'⟩ := p
    by_cases hk : k' = k
    · simp [indexInsert, hk, alookup]
    · simp [indexInsert, hk, alookup, ih]

/-- Little-endian encoding always produces exactly `w` bytes. -/
theorem leBytes_length (w v : Nat) : (leBytes w v).length = w := by
  induction w generalizing v with
  | zero => rfl
  | succ n ih => simp [leBytes, ih]

/-- A write with the cursor at or past the end appends (after zero-padding
the gap); nothing before the cursor is touched. -/
theorem Sink.write_data (st : Sink) (bs : List Nat) (h : st.data.length ≤ st.pos) :
    (st.write bs).data = st.data ++ (List.replicate (st.pos - st.data.length) 0 ++ bs) := by
  have hdrop : st.data.drop (st.pos + bs.length) = [] :=
    List.drop_eq_nil_of_le (by omega)
  simp [Sink.write, List.take_of_length_le h, hdrop]

theorem Sink.write_pos (st : Sink) (bs : List Nat) :
    (st.write bs).pos = st.pos + bs.length := rfl

/-- After a write from a well-formed cursor, the data ends at the cursor. -/
theorem Sink.write_length (st : Sink) (bs : List Nat) (h : st.data.length ≤ st.pos) :
    (st.write bs).data.length = st.pos + bs.length := by
  rw [Sink.write_data st bs h]
  simp
  omega

/-- A write at exactly the end of the data is a plain append. -/
theorem Sink.write_at_end (l bs : List Nat) :
    Sink.write ⟨l, l.length⟩ bs = ⟨l ++ bs, l.length + bs.length⟩ := by
  have hd := Sink.write_data ⟨l, l.length⟩ bs (by simp)
  simp only [Nat.sub_self, List.replicate_zero, List.nil_append] at hd
  have hp := Sink.write_pos ⟨l, l.length⟩ bs
  cases hw : Sink.write ⟨l, l.length⟩ bs with
  | mk d p =>
    rw [hw] at hd hp
    simp at hd hp
    simp [hd, hp]

/-! ### Repository rounding unit tests, replayed on the embedding -/

example : ScaleRounding.apply .Floor 11 3 = 3 := rfl
example : ScaleRounding.apply .Floor 10 10 = 1 := rfl
example : ScaleRounding.apply .Floor 26 5 = 5 := rfl
example : ScaleRounding.apply .Ceiling 11 3 = 4 := rfl
example : ScaleRounding.apply .Ceiling 10 10 = 1 := rfl
example : ScaleRounding.apply .Ceiling 26 5 = 6 := rfl
example : ScaleRounding.apply .Nearest 11 3 = 4 := rfl
example : ScaleRounding.apply .Nearest 10 10 = 1 := rfl
example : ScaleRounding.apply .Nearest 26 5 = 5 := rfl

/-! ### Claim theorems -/

/-- C6: for every value `v` and scale `s ≥ 1`, `ScaleRounding::apply`
computes: `Floor` the floor of `v / s` (greatest `n` with `s * n ≤ v`),
`Ceiling` the ceiling of `v / s` (least `n` with `v ≤ s * n`), and `Nearest`
the literal parity rule — floor division of `v` when `v` is even and of
`v + 1` when `v` is odd — not round-half-to-even. -/
theorem claim_C6 (v s : Nat) (h : 1 ≤ s) :
    (ScaleRounding.apply .Floor v s = v / s
      ∧ ∀ n, n ≤ ScaleRounding.apply .Floor v s ↔ s * n ≤ v)
    ∧ (∀ n, ScaleRounding.apply .Ceiling v s ≤ n ↔ v ≤ s * n)
    ∧ (v % 2 = 0 →
        ScaleRounding.apply .Nearest v s = v / s
          ∧ ∀ n, n ≤ ScaleRounding.apply .Nearest v s ↔ s * n ≤ v)
    ∧ (v % 2 = 1 →
        ScaleRounding.apply .Nearest v s = (v + 1) / s
          ∧ ∀ n, n ≤ ScaleRounding.apply .Nearest v s ↔ s * n ≤ v + 1) := by
  refine ⟨⟨rfl, fun n => floor_char v s n h⟩, fun n => ceiling_char v s n h, ?_, ?_⟩
  · intro hv
    have he : ScaleRounding.apply .Nearest v s = v / s := by
      simp [ScaleRounding.apply, hv]
    exact ⟨he, fun n => by rw [he]; exact floor_char v s n h⟩
  · intro hv
    have he : ScaleRounding.apply .Nearest v s = (v + 1) / s := by
      simp [ScaleRounding.apply, hv]
    exact ⟨he, fun n => by rw [he]; exact floor_char (v + 1) s n h⟩

/-- Witness for C6 at `v = 11`, `s = 3` (the repository's own test values). -/
theorem claim_C6_witness :
    (ScaleRounding.apply .Ceiling 11 3 ≤ 4 ↔ 11 ≤ 3 * 4)
    ∧ ScaleRounding.apply .Nearest 11 3 = (11 + 1) / 3 :=
  ⟨(claim_C6 11 3 (by decide)).2.1 4, ((claim_C6 11 3 (by decide)).2.2.2 (by decide)).1⟩

/-- C10: `ScaleRounding::apply` has no zero guard on its divisions, so it is
total (returns without panicking) exactly when `scale ≥ 1`, for every
rounding mode; `dynamic_u16_chunk` accepts any `usize` scale unchecked
(including 0, recorded verbatim in the new `Dynamic` field); and emitting a
`Dynamic` field with `scale = 0` reaches the unguarded division (the
divide-by-zero panic outcome). -/
theorem claim_C10 :
    (∀ (r : ScaleRounding) (v s : Nat), (r.applyChecked v s).isSome ↔ 1 ≤ s)
    ∧ (∀ (r : ScaleRounding) (v s : Nat), 1 ≤ s →
        r.applyChecked v s = some (r.apply v s))
    ∧ (∀ (S : Type) (b : SerialSectorBuilder S) (o t : S) (i sc : Nat),
        (b.dynamic_u16_chunk o t i sc).fields
          = b.fields ++ [.Dynamic o t i sc .Floor 2])
    ∧ SerialField.build (S := Nat) (.Dynamic 0 1 0 0 .Floor 2) ⟨[], 0⟩
        [(1, ⟨[]⟩)] ⟨[(0, 0), (1, 0)]⟩ fsNone = .error .divByZero :=
  ⟨applyChecked_isSome, fun r v s h => applyChecked_eq r v s h,
    fun _ _ _ _ _ _ => rfl, rfl⟩

/-- Witness for C10's scale-positive conjunct at `Floor`, `v = 10`, `s = 2`. -/
theorem claim_C10_witness :
    ScaleRounding.applyChecked .Floor 10 2 = some (ScaleRounding.apply .Floor 10 2) :=
  claim_C10.2.1 .Floor 10 2 (by decide)

/-- C9: inserting a sector under a key the top-level builder already holds
replaces the stored sector but keeps the key at its original position in the
insertion order (so its layout position is fixed by the first insertion). -/
theorem claim_C9 {S : Type} [DecidableEq S] (b : SerialBuilder S) (key : S)
    (old upd : SerialSectorBuilder S) (h : alookup b.sectors key = some old) :
    (b.sector key upd).sectors.map Prod.fst = b.sectors.map Prod.fst
    ∧ alookup (b.sector key upd).sectors key = some upd := by
  constructor
  · exact indexInsert_keys b.sectors key upd (by rw [h]; exact fun hc => Option.noConfusion hc)
  · exact alookup_indexInsert b.sectors key upd

/-- Witness for C9: re-inserting key 0 of a two-sector builder keeps the key
order `[0, 1]` and stores the new sector. -/
theorem claim_C9_witness :
    ((SerialBuilder.sector (S := Nat) ⟨[(0, ⟨[]⟩), (1, ⟨[]⟩)]⟩ 0 ⟨[.U8 1]⟩).sectors.map Prod.fst
        = ([(0, ⟨[]⟩), (1, ⟨[]⟩)] : List (Nat × SerialSectorBuilder Nat)).map Prod.fst)
    ∧ alookup (SerialBuilder.sector (S := Nat) ⟨[(0, ⟨[]⟩), (1, ⟨[]⟩)]⟩ 0 ⟨[.U8 1]⟩).sectors 0
        = some ⟨[.U8 1]⟩ :=
  claim_C9 ⟨[(0, ⟨[]⟩), (1, ⟨[]⟩)]⟩ 0 ⟨[]⟩ ⟨[.U8 1]⟩ rfl

/-- C3 counterexample: the claim says every `U16` field is written LSB-first,
but emitting `U16 0x0102` (258) writes `[0x01, 0x02]` — MSB first (tokio's
`write_u16` is big-endian) — which differs from the LSB-first `[0x02, 0x01]`. -/
theorem claim_C3_cex :
    SerialField.build (S := Nat) (.U16 258) ⟨[], 0⟩ [] ⟨[]⟩ fsNone
      = .ok ⟨[1, 2], 2⟩
    ∧ [1, 2] ≠ [2, 1] :=
  ⟨rfl, by decide⟩

/-- C3 amended: `U8` writes its single byte and `U24` is little-endian
(LSB-first), but the literal `U16`, `U32` and `U64` fields are emitted
big-endian (MSB-first); only the `Dynamic` pointer path is little-endian
(see C4's theorem). -/
theorem claim_C3_amended {S : Type} [DecidableEq S] (v : Nat) (l : List Nat)
    (sectors : List (S × SerialSectorBuilder S)) (tracker : SerialTracker S)
    (fs : PathStr → Option (List Nat)) :
    SerialField.build (S := S) (.U8 v) ⟨l, l.length⟩ sectors tracker fs
      = .ok ⟨l ++ [v % 256], l.length + 1⟩
    ∧ SerialField.build (S := S) (.U16 v) ⟨l, l.length⟩ sectors tracker fs
      = .ok ⟨l ++ [v / 256 % 256, v % 256], l.length + 2⟩
    ∧ SerialField.build (S := S) (.U24 v) ⟨l, l.length⟩ sectors tracker fs
      = .ok ⟨l ++ [v % 256, v / 256 % 256, v / 256 / 256 % 256], l.length + 3⟩
    ∧ SerialField.build (S := S) (.U32 v) ⟨l, l.length⟩ sectors tracker fs
      = .ok ⟨l ++ [v / 256 / 256 / 256 % 256, v / 256 / 256 % 256,
          v / 256 % 256, v % 256], l.length + 4⟩
    ∧ SerialField.build (S := S) (.U64 v) ⟨l, l.length⟩ sectors tracker fs
      = .ok ⟨l ++ [v / 256 / 256 / 256 / 256 / 256 / 256 / 256 % 256,
          v / 256 / 256 / 256 / 256 / 256 / 256 % 256,
          v / 256 / 256 / 256 / 256 / 256 % 256,
          v / 256 / 256 / 256 / 256 % 256,
          v / 256 / 256 / 256 % 256, v / 256 / 256 % 256,
          v / 256 % 256, v % 256], l.length + 8⟩ := by
  refine ⟨?_, ?_, ?_, ?_, ?_⟩ <;>
    simp [SerialField.build, beBytes, leBytes, Sink.write_at_end]

/-- Sizing can only fail with `originMissing`, `fillUnderflow` or
`fillOverflow`; in particular never with `indexOutOfRange`. -/
theorem calculate_size_ne_index {S : Type} [DecidableEq S]
    (f : SerialField S) (off : Nat) (tr : SerialTracker S) :
    f.calculate_size off tr ≠ .error .indexOutOfRange := by
  cases f with
  | Fill origin fill =>
    simp only [SerialField.calculate_size]
    cases ha : SerialTracker.offset_from_origin tr origin with
    | error e =>
      cases hb : alookup tr.sector_offsets origin <;>
        simp [SerialTracker.offset_from_origin, hb] at ha ⊢ <;> simp [← ha]
    | ok op =>
      by_cases h1 : op ≤ off <;> by_cases h2 : off - op ≤ fill <;>
        simp [SerialField.fill_size, checkedSub, h1, h2]
  | _ => simp [SerialField.calculate_size]

/-- The size-accumulation loop never fails with `indexOutOfRange`. -/
theorem addSizes_ne_index {S : Type} [DecidableEq S]
    (fl : List (SerialField S)) (off : Nat) (tr : SerialTracker S) :
    addSizes fl off tr ≠ .error .indexOutOfRange := by
  induction fl generalizing off with
  | nil => simp [addSizes]
  | cons f rest ih =>
    simp only [addSizes]
    cases h : f.calculate_size off tr with
    | error e =>
      have := calculate_size_ne_index f off tr
      rw [h] at this
      simpa using this
    | ok s => exact ih (off + s)

/-- C5: `fill_size` succeeds exactly when the current position `P` is at or
past the origin `O` and at most `fill` past it, returning `fill − (P − O)`
(zero included); it fails with the underflow error exactly when `P < O` and
with the overflow error exactly when `P − O > fill`.  A `Fill` field's size is
`fill_size` at its layout offset, and emitting a `Fill` only advances the
cursor by that amount — it appends no bytes, and a zero amount leaves the sink
unchanged. -/
theorem claim_C5 :
    (∀ offset op fill n, SerialField.fill_size offset op fill = .ok n ↔
        op ≤ offset ∧ offset - op ≤ fill ∧ n = fill - (offset - op))
    ∧ (∀ offset op fill,
        SerialField.fill_size offset op fill = .error .fillUnderflow ↔ offset < op)
    ∧ (∀ offset op fill,
        SerialField.fill_size offset op fill = .error .fillOverflow ↔
          op ≤ offset ∧ fill < offset - op)
    ∧ (∀ (S : Type) [DecidableEq S] (tracker : SerialTracker S) (origin : S)
        (op P fill : Nat),
        alookup tracker.sector_offsets origin = some op →
        SerialField.calculate_size (S := S) (.Fill origin fill) P tracker
          = SerialField.fill_size P op fill)
    ∧ (∀ (S : Type) [DecidableEq S] (st : Sink)
        (sectors : List (S × SerialSectorBuilder S)) (tracker : SerialTracker S)
        (fs : PathStr → Option (List Nat)) (origin : S) (op fill n : Nat),
        alookup tracker.sector_offsets origin = some op →
        SerialField.fill_size st.pos op fill = .ok n →
        SerialField.build (S := S) (.Fill origin fill) st sectors tracker fs
            = .ok (st.seek n)
          ∧ (st.seek n).data = st.data ∧ (n = 0 → st.seek n = st)) := by
  refine ⟨?_, ?_, ?_, ?_, ?_⟩
  · intro offset op fill n
    by_cases h1 : op ≤ offset
    · by_cases h2 : offset - op ≤ fill <;>
        simp [SerialField.fill_size, checkedSub, h1, h2] <;> omega
    · simp [SerialField.fill_size, checkedSub, h1]
  · intro offset op fill
    by_cases h1 : op ≤ offset
    · by_cases h2 : offset - op ≤ fill <;>
        simp [SerialField.fill_size, checkedSub, h1, h2] <;> try omega
    · simp [SerialField.fill_size, checkedSub, h1]; omega
  · intro offset op fill
    by_cases h1 : op ≤ offset
    · by_cases h2 : offset - op ≤ fill <;>
        simp [SerialField.fill_size, checkedSub, h1, h2] <;> try omega
    · simp [SerialField.fill_size, checkedSub, h1]
  · intro S _ tracker origin op P fill h
    simp [SerialField.calculate_size, SerialTracker.offset_from_origin, h]
  · intro S _ st sectors tracker fs origin op fill n h h2
    refine ⟨?_, rfl, ?_⟩
    · simp [SerialField.build, SerialTracker.offset_from_origin, h, h2]
    · intro h0
      subst h0
      cases st
      simp [Sink.seek]

/-- Witness for C5 at the repository's `sector_fill` scenario: position 5,
origin 0, fill 16 gives 11 skipped bytes; the emit advances the cursor only. -/
theorem claim_C5_witness :
    (SerialField.fill_size 5 0 16 = .ok 11)
    ∧ (SerialField.build (S := Nat) (.Fill 0 16) ⟨[84, 101, 115, 116, 0], 5⟩ []
          ⟨[(0, 0)]⟩ fsNone = .ok (Sink.seek ⟨[84, 101, 115, 116, 0], 5⟩ 11)
        ∧ (Sink.seek ⟨[84, 101, 115, 116, 0], 5⟩ 11).data = [84, 101, 115, 116, 0]
        ∧ ((11 : Nat) = 0 → Sink.seek ⟨[84, 101, 115, 116, 0], 5⟩ 11
            = ⟨[84, 101, 115, 116, 0], 5⟩)) :=
  ⟨(claim_C5.1 5 0 16 11).mpr (by decide),
    claim_C5.2.2.2.2 Nat ⟨[84, 101, 115, 116, 0], 5⟩ [] ⟨[(0, 0)]⟩ fsNone 0 0 16 11
      rfl rfl⟩

/-- Emitting a `Dynamic` field with a supported width reduces to the body of
the `match_bytes!` macro once the pointer has been resolved. -/
theorem build_dynamic_eq {S : Type} [DecidableEq S]
    (o t : S) (idx scale : Nat) (r : ScaleRounding) (w : Nat)
    (hw : w = 1 ∨ w = 2 ∨ w = 3 ∨ w = 4) (st : Sink)
    (sectors : List (S × SerialSectorBuilder S)) (tr : SerialTracker S)
    (fs : PathStr → Option (List Nat)) (pointer : Nat)
    (hp : tr.offset_field_from_sector o t idx sectors tr = .ok pointer) :
    SerialField.build (.Dynamic o t idx scale r w) st sectors tr fs
      = writePointer st r pointer scale w := by
  rcases hw with h | h | h | h <;> subst h <;> simp [SerialField.build, hp]

/-- C4 counterexample: the claim says a scaled pointer value exceeding the
declared width's unsigned max always fails.  But the source casts `as u32`
before the width check, so with a 4-byte width and a resolved offset of
`2^32 = 4294967296` (> `2^32 − 1`, the 4-byte max) the emit *succeeds* and
silently writes the truncated value 0. -/
theorem claim_C4_cex :
    SerialField.build (S := Nat) (.Dynamic 0 1 0 1 .Floor 4) ⟨[], 0⟩
        [(1, ⟨[]⟩)] ⟨[(0, 0), (1, 4294967296)]⟩ fsNone = .ok ⟨[0, 0, 0, 0], 4⟩
    ∧ ScaleRounding.apply .Floor 4294967296 1 = 4294967296
    ∧ 4294967295 < 4294967296 :=
  ⟨rfl, rfl, by decide⟩

/-- C4 amended: the overflow check is applied to the scaled value *after*
truncation `as u32`: for a supported width `w` (and nonzero scale), emission
fails with the `8·w`-bit pointer-overflow error exactly when
`scaled % 2^32 ≥ 2^(8·w)`, and otherwise writes `scaled % 2^32` little-endian
in `w` bytes.  (For `w = 4` the check can never fire, so values ≥ 2^32 are
silently truncated modulo 2^32; below 2^32 no silent truncation occurs.) -/
theorem claim_C4_amended {S : Type} [DecidableEq S]
    (tr : SerialTracker S) (sectors : List (S × SerialSectorBuilder S))
    (st : Sink) (fs : PathStr → Option (List Nat)) (o t : S)
    (idx scale : Nat) (r : ScaleRounding) (w pointer : Nat)
    (hp : tr.offset_field_from_sector o t idx sectors tr = .ok pointer)
    (hs : 1 ≤ scale) (hw : w = 1 ∨ w = 2 ∨ w = 3 ∨ w = 4) :
    (SerialField.build (.Dynamic o t idx scale r w) st sectors tr fs
        = .error (.pointerOverflow (8 * w))
      ↔ 2 ^ (8 * w) ≤ r.apply pointer scale % 2 ^ 32)
    ∧ (r.apply pointer scale % 2 ^ 32 < 2 ^ (8 * w) →
      SerialField.build (.Dynamic o t idx scale r w) st sectors tr fs
        = .ok (st.write (leBytes w (r.apply pointer scale % 2 ^ 32)))) := by
  rw [build_dynamic_eq o t idx scale r w hw st sectors tr fs pointer hp]
  unfold writePointer
  rw [applyChecked_eq r pointer scale hs]
  by_cases hc : r.apply pointer scale % 2 ^ 32 < 2 ^ (8 * w) <;> simp [hc] <;> omega

/-- Witness for C4's amended theorem: a 2-byte pointer to offset 70000
(> 65535) fails with the 16-bit overflow error. -/
theorem claim_C4_witness :
    SerialField.build (S := Nat) (.Dynamic 0 1 0 1 .Floor 2) ⟨[], 0⟩
        [(1, ⟨[]⟩)] ⟨[(0, 0), (1, 70000)]⟩ fsNone
      = .error (.pointerOverflow (8 * 2)) :=
  (claim_C4_amended (S := Nat) ⟨[(0, 0), (1, 70000)]⟩ [(1, ⟨[]⟩)] ⟨[], 0⟩ fsNone
      0 1 0 1 .Floor 2 70000 (by rfl) (by decide)
      (Or.inr (Or.inl rfl))).1.mpr (by decide)

/-- C7: under the lookup preconditions (`from` and `to` tracked, target not
before origin, target sector present), `offset_field_from_sector` with
`index = 0` succeeds even on an empty target sector, returning
`tracker[to] − tracker[from]`; for any nonzero index it fails with the
index-out-of-range error exactly when the index is ≥ the field count. -/
theorem claim_C7 {S : Type} [DecidableEq S] (tr : SerialTracker S)
    (sectors : List (S × SerialSectorBuilder S)) (from_sector to_sector : S)
    (fo to_o : Nat) (sb : SerialSectorBuilder S) (idx : Nat)
    (hf : alookup tr.sector_offsets from_sector = some fo)
    (ht : alookup tr.sector_offsets to_sector = some to_o)
    (hle : fo ≤ to_o)
    (hsb : alookup sectors to_sector = some sb) :
    (sb.fields = [] →
      tr.offset_field_from_sector from_sector to_sector 0 sectors tr
        = .ok (to_o - fo))
    ∧ (idx ≠ 0 →
      (tr.offset_field_from_sector from_sector to_sector idx sectors tr
          = .error .indexOutOfRange
        ↔ sb.fields.length ≤ idx)) := by
  have hcs : checkedSub to_o fo = some (to_o - fo) := by simp [checkedSub, hle]
  constructor
  · intro hemp
    simp [SerialTracker.offset_field_from_sector, hf, ht, hcs, hsb, hemp, addSizes]
  · intro hidx
    by_cases hlen : sb.fields.length ≤ idx
    · simp [SerialTracker.offset_field_from_sector, hf, ht, hcs, hsb, hlen, hidx]
    · have heq : tr.offset_field_from_sector from_sector to_sector idx sectors tr
          = addSizes (List.take idx sb.fields) (to_o - fo) tr := by
        simp [SerialTracker.offset_field_from_sector, hf, ht, hcs, hsb, hlen]
      rw [heq]
      exact iff_of_false (addSizes_ne_index _ _ _) hlen

/-- Witness for C7: an empty target sector with index 0 succeeds; an index 5
into a 1-field sector is out of range. -/
theorem claim_C7_witness :
    (SerialTracker.offset_field_from_sector (S := Nat) ⟨[(0, 0), (1, 3)]⟩ 0 0 0
        [(0, ⟨[]⟩), (1, ⟨[.U8 7]⟩)] ⟨[(0, 0), (1, 3)]⟩ = .ok (0 - 0))
    ∧ (SerialTracker.offset_field_from_sector (S := Nat) ⟨[(0, 0), (1, 3)]⟩ 0 1 5
        [(0, ⟨[]⟩), (1, ⟨[.U8 7]⟩)] ⟨[(0, 0), (1, 3)]⟩ = .error .indexOutOfRange
      ↔ ([SerialField.U8 7] : List (SerialField Nat)).length ≤ 5) :=
  ⟨(claim_C7 ⟨[(0, 0), (1, 3)]⟩ [(0, ⟨[]⟩), (1, ⟨[.U8 7]⟩)] 0 0 0 0 ⟨[]⟩ 0
      (by rfl) (by rfl) (by decide) (by rfl)).1 rfl,
    (claim_C7 ⟨[(0, 0), (1, 3)]⟩ [(0, ⟨[]⟩), (1, ⟨[.U8 7]⟩)] 0 1 0 3 ⟨[.U8 7]⟩ 5
      (by rfl) (by rfl) (by decide) (by rfl)).2 (by decide)⟩

/-! ### Tracker-extension infrastructure: sizes computed against the
partially built tracker agree with sizes against any extension of it. -/

/-- States that `l'` preserves every lookup of `l`. -/
def TrackerSub {S : Type} [DecidableEq S] (l l' : List (S × Nat)) : Prop :=
  ∀ k v, alookup l k = some v → alookup l' k = some v

theorem trackerSub_rfl {S : Type} [DecidableEq S] (l : List (S × Nat)) :
    TrackerSub l l :=
  fun _ _ h => h

/-- The loop of `SerialTracker::new` only ever appends fresh keys, so lookups in the accumulator
survive to the final tracker. -/
theorem newAux_sub {S : Type} [DecidableEq S] :
    ∀ (secs : List (S × SerialSectorBuilder S)) (acc : List (S × Nat))
      (off : Nat) {res : List (S × Nat)} {total : Nat},
      SerialTracker.newAux secs acc off = .ok (res, total) → TrackerSub acc res := by
  intro secs
  induction secs with
  | nil =>
    intro acc off res total h
    simp only [SerialTracker.newAux, Except.ok.injEq, Prod.mk.injEq] at h
    obtain ⟨h1, _⟩ := h
    subst h1
    exact trackerSub_rfl acc
  | cons p rest ih =>
    obtain ⟨sector_id, sector⟩ := p
    intro acc off res total h
    simp only [SerialTracker.newAux] at h
    cases ha : addSizes sector.fields off ⟨acc⟩ with
    | error e => rw [ha] at h; simp at h
    | ok off1 =>
      rw [ha] at h
      cases hb : alookup acc sector_id with
      | some _ => rw [hb] at h; simp at h
      | none =>
        rw [hb] at h
        exact fun k v hv => ih _ off1 h k v (alookup_append_some _ hv)

/-- Size computations that succeed are stable under tracker extension. -/
theorem calculate_size_mono {S : Type} [DecidableEq S]
    (t t' : SerialTracker S) (hsub : TrackerSub t.sector_offsets t'.sector_offsets)
    (f : SerialField S) (off n : Nat) (h : f.calculate_size off t = .ok n) :
    f.calculate_size off t' = .ok n := by
  cases f with
  | Fill origin fill =>
    simp only [SerialField.calculate_size] at h ⊢
    cases ha : alookup t.sector_offsets origin with
    | none => simp [SerialTracker.offset_from_origin, ha] at h
    | some op =>
      have hb := hsub origin op ha
      simp only [SerialTracker.offset_from_origin, ha, hb] at h ⊢
      exact h
  | _ => simpa [SerialField.calculate_size] using h

/-- The accumulation loop is stable under tracker extension. -/
theorem addSizes_mono {S : Type} [DecidableEq S]
    (t t' : SerialTracker S) (hsub : TrackerSub t.sector_offsets t'.sector_offsets) :
    ∀ (fl : List (SerialField S)) (off r : Nat),
      addSizes fl off t = .ok r → addSizes fl off t' = .ok r := by
  intro fl
  induction fl with
  | nil => intro off r h; simpa [addSizes] using h
  | cons f rest ih =>
    intro off r h
    simp only [addSizes] at h ⊢
    cases hc : f.calculate_size off t with
    | error e => rw [hc] at h; simp at h
    | ok s =>
      rw [hc] at h
      rw [calculate_size_mono t t' hsub f off s hc]
      exact ih _ r h

/-- Accumulated sizes never decrease the offset. -/
theorem addSizes_ge {S : Type} [DecidableEq S] :
    ∀ (fl : List (SerialField S)) (off r : Nat) (t : SerialTracker S),
      addSizes fl off t = .ok r → off ≤ r := by
  intro fl
  induction fl with
  | nil =>
    intro off r t h
    simp only [addSizes, Except.ok.injEq] at h
    omega
  | cons f rest ih =>
    intro off r t h
    simp only [addSizes] at h
    cases hc : f.calculate_size off t with
    | error e => rw [hc] at h; simp at h
    | ok s =>
      rw [hc] at h
      have := ih (off + s) r t h
      omega

/-- Core of C8: the running offsets of `SerialTracker::new` are the spec-side
cumulative starts computed against the final tracker, each key maps to its
start, and the starts never decrease. -/
theorem newAux_startsList {S : Type} [DecidableEq S] (T : SerialTracker S) :
    ∀ (secs : List (S × SerialSectorBuilder S)) (acc : List (S × Nat))
      (off : Nat) (res : List (S × Nat)) (total : Nat),
      SerialTracker.newAux secs acc off = .ok (res, total) →
      TrackerSub res T.sector_offsets →
      ∃ offs : List Nat,
        startsList secs off T = .ok offs
        ∧ offs.length = secs.length
        ∧ (∀ (i : Nat) k sb o, secs[i]? = some (k, sb) → offs[i]? = some o →
            alookup T.sector_offsets k = some o)
        ∧ (∀ x ∈ offs, off ≤ x)
        ∧ offs.Pairwise (· ≤ ·) := by
  intro secs
  induction secs with
  | nil =>
    intro acc off res total h hsub
    exact ⟨[], rfl, rfl, by simp, by simp, by simp⟩
  | cons p rest ih =>
    obtain ⟨k0, sb0⟩ := p
    intro acc off res total h hsub
    simp only [SerialTracker.newAux] at h
    cases ha : addSizes sb0.fields off ⟨acc⟩ with
    | error e => rw [ha] at h; simp at h
    | ok off1 =>
      rw [ha] at h
      cases hb : alookup acc k0 with
      | some _ => rw [hb] at h; simp at h
      | none =>
        rw [hb] at h
        have hsubacc : TrackerSub (acc ++ [(k0, off)]) res := newAux_sub rest _ off1 h
        have hsubT : TrackerSub (acc ++ [(k0, off)]) T.sector_offsets :=
          fun k v hv => hsub k v (hsubacc k v hv)
        have hsubaccT : TrackerSub acc T.sector_offsets :=
          fun k v hv => hsubT k v (alookup_append_some _ hv)
        have haT : addSizes sb0.fields off T = .ok off1 :=
          addSizes_mono ⟨acc⟩ T hsubaccT _ _ _ ha
        have hk0 : alookup T.sector_offsets k0 = some off := by
          refine hsubT k0 off ?_
          rw [alookup_append_none _ hb]
          simp [alookup]
        have hoff1 : off ≤ off1 := addSizes_ge _ _ _ _ ha
        obtain ⟨offs, h1, h2, h3, h4, h5⟩ := ih (acc ++ [(k0, off)]) off1 res total h hsub
        refine ⟨off :: offs, ?_, by simp [h2], ?_, ?_, ?_⟩
        · simp only [startsList, haT, h1]
        · intro i k sb o hi ho
          cases i with
          | zero =>
            simp only [List.getElem?_cons_zero, Option.some.injEq, Prod.mk.injEq] at hi ho
            obtain ⟨hk, _⟩ := hi
            subst hk
            subst ho
            exact hk0
          | succ n =>
            simp only [List.getElem?_cons_succ] at hi ho
            exact h3 n k sb o hi ho
        · intro x hx
          rcases List.mem_cons.mp hx with hx | hx
          · omega
          · exact le_trans hoff1 (h4 x hx)
        · exact List.Pairwise.cons (fun x hx => le_trans hoff1 (h4 x hx)) h5

/-- C8: when `SerialTracker::new` succeeds, it assigns every sector the
cumulative sum of the total sizes of all preceding sectors in insertion order
(the first sector gets 0), and these offsets are monotone nondecreasing in
insertion order. -/
theorem claim_C8 {S : Type} [DecidableEq S]
    (sectors : List (S × SerialSectorBuilder S)) (t : SerialTracker S)
    (h : SerialTracker.new sectors = .ok t) :
    ∃ offs : List Nat,
      startsList sectors 0 t = .ok offs
      ∧ offs.length = sectors.length
      ∧ (∀ (i : Nat) k sb off, sectors[i]? = some (k, sb) → offs[i]? = some off →
          alookup t.sector_offsets k = some off)
      ∧ offs.Pairwise (· ≤ ·) := by
  unfold SerialTracker.new at h
  cases hn : SerialTracker.newAux sectors [] 0 with
  | error e => rw [hn] at h; simp at h
  | ok p =>
    obtain ⟨l, total⟩ := p
    rw [hn] at h
    simp only [Except.ok.injEq] at h
    subst h
    obtain ⟨offs, h1, h2, h3, _, h5⟩ :=
      newAux_startsList ⟨l⟩ sectors [] 0 l total hn (trackerSub_rfl l)
    exact ⟨offs, h1, h2, h3, h5⟩

/-- Witness for C8 on a concrete two-sector graph: starts `[0, 1]`. -/
theorem claim_C8_witness :
    ∃ offs : List Nat,
      startsList (S := Nat) [(0, ⟨[.U8 255]⟩), (1, ⟨[.U16 5]⟩)] 0 ⟨[(0, 0), (1, 1)]⟩
          = .ok offs
      ∧ offs.length = ([(0, ⟨[.U8 255]⟩), (1, ⟨[.U16 5]⟩)] :
          List (Nat × SerialSectorBuilder Nat)).length
      ∧ (∀ (i : Nat) k sb off,
          ([(0, ⟨[.U8 255]⟩), (1, ⟨[.U16 5]⟩)] :
            List (Nat × SerialSectorBuilder Nat))[i]? = some (k, sb) →
          offs[i]? = some off →
          alookup (SerialTracker.sector_offsets (S := Nat) ⟨[(0, 0), (1, 1)]⟩) k
            = some off)
      ∧ offs.Pairwise (· ≤ ·) :=
  claim_C8 [(0, ⟨[.U8 255]⟩), (1, ⟨[.U16 5]⟩)] ⟨[(0, 0), (1, 1)]⟩ (by rfl)

/-! ### Emission tracks layout: each successful field emit advances the
cursor by exactly the field's `calculate_size` at that position, and only
ever appends to the data. -/

theorem beBytes_length (w v : Nat) : (beBytes w v).length = w := by
  simp [beBytes, leBytes_length]

/-- The three facts a single write gives from a well-formed sink. -/
theorem write_facts (st : Sink) (bs : List Nat) (hwf : st.data.length ≤ st.pos) :
    (st.write bs).pos = st.pos + bs.length
    ∧ (st.write bs).data.length = st.pos + bs.length
    ∧ ∃ ext, (st.write bs).data = st.data ++ ext :=
  ⟨Sink.write_pos st bs, Sink.write_length st bs hwf, ⟨_, Sink.write_data st bs hwf⟩⟩

/-- The width dispatch of `SerialField::build`'s dynamic arm, as a single
conditional. -/
theorem build_dynamic_cases {S : Type} [DecidableEq S] (o t : S)
    (idx scale : Nat) (r : ScaleRounding) (w : Nat) (st : Sink)
    (sectors : List (S × SerialSectorBuilder S)) (tr : SerialTracker S)
    (fs : PathStr → Option (List Nat)) :
    SerialField.build (.Dynamic o t idx scale r w) st sectors tr fs =
      match tr.offset_field_from_sector o t idx sectors tr with
      | .error e => .error e
      | .ok pointer =>
        if w = 1 ∨ w = 2 ∨ w = 3 ∨ w = 4 then writePointer st r pointer scale w
        else .error .unsupportedWidth := by
  cases hp : tr.offset_field_from_sector o t idx sectors tr with
  | error e => simp [SerialField.build, hp]
  | ok pointer =>
    rcases w with _ | _ | _ | _ | _ | n <;> simp [SerialField.build, hp] <;> omega

theorem build_advance {S : Type} [DecidableEq S]
    (f : SerialField S) (st st' : Sink)
    (sectors : List (S × SerialSectorBuilder S)) (tracker : SerialTracker S)
    (fs : PathStr → Option (List Nat))
    (hwf : st.data.length ≤ st.pos)
    (h : f.build st sectors tracker fs = .ok st') :
    f.calculate_size st.pos tracker = .ok (st'.pos - st.pos)
    ∧ st.pos ≤ st'.pos
    ∧ st'.data.length ≤ st'.pos
    ∧ ∃ ext, st'.data = st.data ++ ext := by
  cases f with
  | String value =>
    simp only [SerialField.build, Except.ok.injEq] at h
    subst h
    obtain ⟨hp1, hl1, ext1, he1⟩ := write_facts st value hwf
    have hwf1 : (st.write value).data.length ≤ (st.write value).pos := by omega
    obtain ⟨hp2, hl2, ext2, he2⟩ := write_facts (st.write value) [0] hwf1
    simp only [List.length_cons, List.length_nil] at hp2 hl2
    refine ⟨?_, by omega, by omega, ⟨ext1 ++ ext2, ?_⟩⟩
    · simp only [SerialField.calculate_size, Except.ok.injEq]
      omega
    · rw [he2, he1, List.append_assoc]
  | Bytes value =>
    simp only [SerialField.build, Except.ok.injEq] at h
    subst h
    obtain ⟨hp1, hl1, ext1, he1⟩ := write_facts st value hwf
    exact ⟨by simp only [SerialField.calculate_size, Except.ok.injEq]; omega,
      by omega, by omega, ⟨ext1, he1⟩⟩
  | U8 value =>
    simp only [SerialField.build, Except.ok.injEq] at h
    subst h
    obtain ⟨hp1, hl1, ext1, he1⟩ := write_facts st (leBytes 1 value) hwf
    rw [leBytes_length] at hp1 hl1
    exact ⟨by simp only [SerialField.calculate_size, Except.ok.injEq]; omega,
      by omega, by omega, ⟨ext1, he1⟩⟩
  | U16 value =>
    simp only [SerialField.build, Except.ok.injEq] at h
    subst h
    obtain ⟨hp1, hl1, ext1, he1⟩ := write_facts st (beBytes 2 value) hwf
    rw [beBytes_length] at hp1 hl1
    exact ⟨by simp only [SerialField.calculate_size, Except.ok.injEq]; omega,
      by omega, by omega, ⟨ext1, he1⟩⟩
  | U24 value =>
    simp only [SerialField.build, Except.ok.injEq] at h
    subst h
    obtain ⟨hp1, hl1, ext1, he1⟩ := write_facts st (leBytes 3 value) hwf
    rw [leBytes_length] at hp1 hl1
    exact ⟨by simp only [SerialField.calculate_size, Except.ok.injEq]; omega,
      by omega, by omega, ⟨ext1, he1⟩⟩
  | U32 value =>
    simp only [SerialField.build, Except.ok.injEq] at h
    subst h
    obtain ⟨hp1, hl1, ext1, he1⟩ := write_facts st (beBytes 4 value) hwf
    rw [beBytes_length] at hp1 hl1
    exact ⟨by simp only [SerialField.calculate_size, Except.ok.injEq]; omega,
      by omega, by omega, ⟨ext1, he1⟩⟩
  | U64 value =>
    simp only [SerialField.build, Except.ok.injEq] at h
    subst h
    obtain ⟨hp1, hl1, ext1, he1⟩ := write_facts st (beBytes 8 value) hwf
    rw [beBytes_length] at hp1 hl1
    exact ⟨by simp only [SerialField.calculate_size, Except.ok.injEq]; omega,
      by omega, by omega, ⟨ext1, he1⟩⟩
  | Dynamic o t idx scale r w =>
    rw [build_dynamic_cases] at h
    cases hp : tracker.offset_field_from_sector o t idx sectors tracker with
    | error e => rw [hp] at h; simp at h
    | ok pointer =>
      rw [hp] at h
      dsimp only at h
      by_cases hw : w = 1 ∨ w = 2 ∨ w = 3 ∨ w = 4
      · rw [if_pos hw] at h
        unfold writePointer at h
        cases happ : r.applyChecked pointer scale with
        | none => rw [happ] at h; simp at h
        | some scaled =>
          rw [happ] at h
          dsimp only at h
          by_cases hv : scaled % 2 ^ 32 < 2 ^ (8 * w)
          · rw [if_pos hv] at h
            simp only [Except.ok.injEq] at h
            subst h
            obtain ⟨hp1, hl1, ext1, he1⟩ :=
              write_facts st (leBytes w (scaled % 2 ^ 32)) hwf
            rw [leBytes_length] at hp1 hl1
            exact ⟨by simp only [SerialField.calculate_size, Except.ok.injEq]; omega,
              by omega, by omega, ⟨ext1, he1⟩⟩
          · rw [if_neg hv] at h; simp at h
      · rw [if_neg hw] at h; simp at h
  | Fill origin fill =>
    simp only [SerialField.build] at h
    cases ho : tracker.offset_from_origin origin with
    | error e => rw [ho] at h; simp at h
    | ok op =>
      rw [ho] at h
      dsimp only at h
      cases hf : SerialField.fill_size st.pos op fill with
      | error e => rw [hf] at h; simp at h
      | ok amt =>
        rw [hf] at h
        simp only [Except.ok.injEq] at h
        subst h
        refine ⟨?_, by simp [Sink.seek], by simp only [Sink.seek]; omega,
          ⟨[], by simp [Sink.seek]⟩⟩
        simp only [SerialField.calculate_size, ho, Sink.seek, hf, Except.ok.injEq]
        omega
  | External path size =>
    simp only [SerialField.build] at h
    cases hfs : fs path with
    | none => rw [hfs] at h; simp at h
    | some data =>
      rw [hfs] at h
      dsimp only at h
      by_cases hlen : data.length = size
      · rw [if_pos hlen] at h
        simp only [Except.ok.injEq] at h
        subst h
        obtain ⟨hp1, hl1, ext1, he1⟩ := write_facts st data hwf
        exact ⟨by simp only [SerialField.calculate_size, Except.ok.injEq]; omega,
          by omega, by omega, ⟨ext1, he1⟩⟩
      · rw [if_neg hlen] at h; simp at h

/-- The field loop advances the cursor by the accumulated sizes. -/
theorem buildFields_advance {S : Type} [DecidableEq S]
    (sectors : List (S × SerialSectorBuilder S)) (tracker : SerialTracker S)
    (fs : PathStr → Option (List Nat)) :
    ∀ (fl : List (SerialField S)) (st st' : Sink),
      st.data.length ≤ st.pos →
      buildFields fl st sectors tracker fs = .ok st' →
      addSizes fl st.pos tracker = .ok st'.pos
      ∧ st.pos ≤ st'.pos
      ∧ st'.data.length ≤ st'.pos
      ∧ ∃ ext, st'.data = st.data ++ ext := by
  intro fl
  induction fl with
  | nil =>
    intro st st' hwf h
    simp only [buildFields, Except.ok.injEq] at h
    subst h
    exact ⟨rfl, le_refl _, hwf, ⟨[], by simp⟩⟩
  | cons f rest ih =>
    intro st st' hwf h
    simp only [buildFields] at h
    cases hb : f.build st sectors tracker fs with
    | error e => rw [hb] at h; simp at h
    | ok st1 =>
      rw [hb] at h
      obtain ⟨hsz, hle, hwf1, ext1, hext1⟩ :=
        build_advance f st st1 sectors tracker fs hwf hb
      obtain ⟨ha, hle2, hwf2, ext2, hext2⟩ := ih st1 st' hwf1 h
      refine ⟨?_, by omega, hwf2,
        ⟨ext1 ++ ext2, by rw [hext2, hext1, List.append_assoc]⟩⟩
      simp only [addSizes, hsz]
      have heq : st.pos + (st1.pos - st.pos) = st1.pos := by omega
      rw [heq]
      exact ha

/-- The sector loop keeps the sink well-formed and only appends. -/
theorem buildSectors_extends {S : Type} [DecidableEq S]
    (allSecs : List (S × SerialSectorBuilder S)) (tracker : SerialTracker S)
    (fs : PathStr → Option (List Nat)) :
    ∀ (secs : List (S × SerialSectorBuilder S)) (st st' : Sink),
      st.data.length ≤ st.pos →
      buildSectors secs st allSecs tracker fs = .ok st' →
      st'.data.length ≤ st'.pos
      ∧ st.pos ≤ st'.pos
      ∧ ∃ ext, st'.data = st.data ++ ext := by
  intro secs
  induction secs with
  | nil =>
    intro st st' hwf h
    simp only [buildSectors, Except.ok.injEq] at h
    subst h
    exact ⟨hwf, le_refl _, ⟨[], by simp⟩⟩
  | cons p rest ih =>
    obtain ⟨k0, sb0⟩ := p
    intro st st' hwf h
    simp only [buildSectors, SerialSectorBuilder.build] at h
    cases hb : buildFields sb0.fields st allSecs tracker fs with
    | error e => rw [hb] at h; simp at h
    | ok st1 =>
      rw [hb] at h
      obtain ⟨_, hle, hwf1, ext1, hext1⟩ :=
        buildFields_advance allSecs tracker fs sb0.fields st st1 hwf hb
      obtain ⟨hwf2, hle2, ext2, hext2⟩ := ih st1 st' hwf1 h
      exact ⟨hwf2, by omega,
        ⟨ext1 ++ ext2, by rw [hext2, hext1, List.append_assoc]⟩⟩

/-- During the sector loop, the cursor reproduces the running offsets of
`SerialTracker::new`: after a successful build the cursor sits at the
tracker's final total. -/
theorem buildSectors_pos {S : Type} [DecidableEq S] (T : SerialTracker S)
    (allSecs : List (S × SerialSectorBuilder S))
    (fs : PathStr → Option (List Nat)) :
    ∀ (secs : List (S × SerialSectorBuilder S)) (acc : List (S × Nat))
      (off : Nat) (res : List (S × Nat)) (total : Nat) (st st' : Sink),
      SerialTracker.newAux secs acc off = .ok (res, total) →
      TrackerSub res T.sector_offsets →
      st.pos = off → st.data.length ≤ st.pos →
      buildSectors secs st allSecs T fs = .ok st' →
      st'.pos = total := by
  intro secs
  induction secs with
  | nil =>
    intro acc off res total st st' hn hsub hpos hwf hb
    simp only [SerialTracker.newAux, Except.ok.injEq, Prod.mk.injEq] at hn
    simp only [buildSectors, Except.ok.injEq] at hb
    subst hb
    omega
  | cons p rest ih =>
    obtain ⟨k0, sb0⟩ := p
    intro acc off res total st st' hn hsub hpos hwf hb
    simp only [SerialTracker.newAux] at hn
    cases ha : addSizes sb0.fields off ⟨acc⟩ with
    | error e => rw [ha] at hn; simp at hn
    | ok off1 =>
      rw [ha] at hn
      cases hdup : alookup acc k0 with
      | some _ => rw [hdup] at hn; simp at hn
      | none =>
        rw [hdup] at hn
        simp only [buildSectors, SerialSectorBuilder.build] at hb
        cases hbf : buildFields sb0.fields st allSecs T fs with
        | error e => rw [hbf] at hb; simp at hb
        | ok st1 =>
          rw [hbf] at hb
          obtain ⟨hsz, _, hwf1, _⟩ :=
            buildFields_advance allSecs T fs sb0.fields st st1 hwf hbf
          have hsubaccT : TrackerSub acc T.sector_offsets := by
            have h1 : TrackerSub (acc ++ [(k0, off)]) res := newAux_sub rest _ off1 hn
            exact fun k v hv => hsub k v (h1 k v (alookup_append_some _ hv))
          have haT : addSizes sb0.fields off T = .ok off1 :=
            addSizes_mono ⟨acc⟩ T hsubaccT _ _ _ ha
          rw [hpos] at hsz
          have hst1 : st1.pos = off1 := by
            have h2 := hsz.symm.trans haT
            exact Except.ok.inj h2
          exact ih (acc ++ [(k0, off)]) off1 res total st1 st' hn hsub hst1 hwf1 hb

/-- The tracker's final running offset is the spec-side sum of all field
sizes (against the full tracker). -/
theorem newAux_sumSizes {S : Type} [DecidableEq S] (T : SerialTracker S) :
    ∀ (secs : List (S × SerialSectorBuilder S)) (acc : List (S × Nat))
      (off : Nat) (res : List (S × Nat)) (total : Nat),
      SerialTracker.newAux secs acc off = .ok (res, total) →
      TrackerSub res T.sector_offsets →
      sumSizes secs off T = .ok total := by
  intro secs
  induction secs with
  | nil =>
    intro acc off res total hn hsub
    simp only [SerialTracker.newAux, Except.ok.injEq, Prod.mk.injEq] at hn
    simp [sumSizes, hn.2]
  | cons p rest ih =>
    obtain ⟨k0, sb0⟩ := p
    intro acc off res total hn hsub
    simp only [SerialTracker.newAux] at hn
    cases ha : addSizes sb0.fields off ⟨acc⟩ with
    | error e => rw [ha] at hn; simp at hn
    | ok off1 =>
      rw [ha] at hn
      cases hdup : alookup acc k0 with
      | some _ => rw [hdup] at hn; simp at hn
      | none =>
        rw [hdup] at hn
        have hsubaccT : TrackerSub acc T.sector_offsets := by
          have h1 : TrackerSub (acc ++ [(k0, off)]) res := newAux_sub rest _ off1 hn
          exact fun k v hv => hsub k v (h1 k v (alookup_append_some _ hv))
        have haT : addSizes sb0.fields off T = .ok off1 :=
          addSizes_mono ⟨acc⟩ T hsubaccT _ _ _ ha
        simp only [sumSizes, haT]
        exact ih (acc ++ [(k0, off)]) off1 res total hn hsub

/-- C2 counterexample (the repository's own `sector_fill_end` test): the sum
of `calculate_size` over all fields is 16, but after a successful build the
sink holds only 5 bytes — the trailing `Fill` seeks past the end of the data
without writing, so the byte count differs from the size sum. -/
theorem claim_C2_cex :
    SerialBuilder.build (S := Nat)
        ⟨[(0, ⟨[]⟩), (1, ⟨[.String [84, 101, 115, 116], .Fill 0 16]⟩)]⟩ ⟨[], 0⟩ fsNone
      = .ok ⟨[84, 101, 115, 116, 0], 16⟩
    ∧ SerialTracker.new (S := Nat)
        [(0, ⟨[]⟩), (1, ⟨[.String [84, 101, 115, 116], .Fill 0 16]⟩)]
      = .ok ⟨[(0, 0), (1, 0)]⟩
    ∧ sumSizes (S := Nat)
        [(0, ⟨[]⟩), (1, ⟨[.String [84, 101, 115, 116], .Fill 0 16]⟩)] 0
        ⟨[(0, 0), (1, 0)]⟩ = .ok 16
    ∧ ([84, 101, 115, 116, 0] : List Nat).length = 5
    ∧ (5 : Nat) ≠ 16 :=
  ⟨rfl, rfl, rfl, rfl, by decide⟩

/-- C2 amended: for every sector graph on which `build` succeeds (from an
empty sink), the sum of `calculate_size` over all fields of all sectors
equals the final *write-cursor position* of the sink; the byte buffer never
extends past the cursor, but it can be shorter when a trailing `Fill` seeks
past the end without a subsequent write. -/
theorem claim_C2_amended {S : Type} [DecidableEq S] (b : SerialBuilder S)
    (fs : PathStr → Option (List Nat)) (out : Sink)
    (h : b.build ⟨[], 0⟩ fs = .ok out) :
    ∃ t : SerialTracker S,
      SerialTracker.new b.sectors = .ok t
      ∧ sumSizes b.sectors 0 t = .ok out.pos
      ∧ out.data.length ≤ out.pos := by
  unfold SerialBuilder.build at h
  cases hn : SerialTracker.new b.sectors with
  | error e => rw [hn] at h; simp at h
  | ok t =>
    rw [hn] at h
    dsimp only at h
    unfold SerialTracker.new at hn
    cases hn2 : SerialTracker.newAux b.sectors [] 0 with
    | error e => rw [hn2] at hn; simp at hn
    | ok p =>
      obtain ⟨l, total⟩ := p
      rw [hn2] at hn
      simp only [Except.ok.injEq] at hn
      subst hn
      have hsub : TrackerSub l (SerialTracker.mk l).sector_offsets := trackerSub_rfl l
      have hpos := buildSectors_pos (T := ⟨l⟩) b.sectors fs b.sectors [] 0 l total
        ⟨[], 0⟩ out hn2 hsub rfl (by simp) h
      have hwfout :=
        (buildSectors_extends b.sectors ⟨l⟩ fs b.sectors ⟨[], 0⟩ out (by simp) h).1
      have hsum := newAux_sumSizes ⟨l⟩ b.sectors [] 0 l total hn2 hsub
      refine ⟨⟨l⟩, ?_, ?_, hwfout⟩
      · simp [SerialTracker.new, hn2]
      · rw [hpos]
        exact hsum

/-- Witness for C2's amended theorem on a one-byte graph: final cursor 1,
which is the sum of sizes. -/
theorem claim_C2_witness :
    ∃ t : SerialTracker Nat,
      SerialTracker.new (S := Nat) [(0, ⟨[.U8 255]⟩)] = .ok t
      ∧ sumSizes [(0, ⟨[.U8 255]⟩)] 0 t = .ok (Sink.pos ⟨[255], 1⟩)
      ∧ (Sink.data ⟨[255], 1⟩).length ≤ Sink.pos ⟨[255], 1⟩ :=
  claim_C2_amended ⟨[(0, ⟨[.U8 255]⟩)]⟩ fsNone ⟨[255], 1⟩ (by rfl)

/-! ### Locating a dynamic pointer's bytes in the final output -/

/-- Extending the data on the right does not disturb an extraction that lies
entirely inside the original data. -/
theorem extract_of_append (A ext : List Nat) (p w : Nat) (h : p + w ≤ A.length) :
    ((A ++ ext).drop p).take w = (A.drop p).take w := by
  rw [List.drop_append_of_le_length (by omega)]
  rw [List.take_append_of_le_length (by simp [List.length_drop]; omega)]

/-- Within one sector's field loop: a `Dynamic(o, t, idx, scale 1, Floor, w)`
field at index `i` writes exactly `leBytes w (raw % 2^32)` at the data
positions starting at its layout offset `p`, and those positions survive the
rest of the loop. -/
theorem buildFields_dynamic {S : Type} [DecidableEq S]
    (allSecs : List (S × SerialSectorBuilder S)) (T : SerialTracker S)
    (fs : PathStr → Option (List Nat)) (o t : S) (idx w raw : Nat)
    (hraw : T.offset_field_from_sector o t idx allSecs T = .ok raw) :
    ∀ (fl : List (SerialField S)) (i : Nat) (st stF : Sink) (p : Nat),
      st.data.length ≤ st.pos →
      buildFields fl st allSecs T fs = .ok stF →
      fl[i]? = some (.Dynamic o t idx 1 .Floor w) →
      addSizes (List.take i fl) st.pos T = .ok p →
      p + w ≤ stF.data.length
      ∧ (stF.data.drop p).take w = leBytes w (raw % 2 ^ 32) := by
  intro fl
  induction fl with
  | nil =>
    intro i st stF p _ _ hget _
    simp at hget
  | cons f rest ih =>
    intro i st stF p hwf hb hget hsz
    simp only [buildFields] at hb
    cases hbf : f.build st allSecs T fs with
    | error e => rw [hbf] at hb; simp at hb
    | ok st1 =>
      rw [hbf] at hb
      cases i with
      | zero =>
        simp only [List.getElem?_cons_zero, Option.some.injEq] at hget
        subst hget
        simp only [List.take_zero, addSizes, Except.ok.injEq] at hsz
        subst hsz
        rw [build_dynamic_cases] at hbf
        rw [hraw] at hbf
        dsimp only at hbf
        by_cases hw : w = 1 ∨ w = 2 ∨ w = 3 ∨ w = 4
        · rw [if_pos hw] at hbf
          unfold writePointer at hbf
          rw [applyChecked_eq .Floor raw 1 (by omega)] at hbf
          dsimp only at hbf
          rw [show ScaleRounding.apply .Floor raw 1 = raw by
            simp [ScaleRounding.apply]] at hbf
          by_cases hv : raw % 2 ^ 32 < 2 ^ (8 * w)
          · rw [if_pos hv] at hbf
            simp only [Except.ok.injEq] at hbf
            subst hbf
            have hd := Sink.write_data st (leBytes w (raw % 2 ^ 32)) hwf
            have hl := Sink.write_length st (leBytes w (raw % 2 ^ 32)) hwf
            rw [leBytes_length] at hl
            have hwf1 : (st.write (leBytes w (raw % 2 ^ 32))).data.length
                ≤ (st.write (leBytes w (raw % 2 ^ 32))).pos := by
              rw [Sink.write_length _ _ hwf, Sink.write_pos]
            obtain ⟨_, _, _, ext, hext⟩ :=
              buildFields_advance allSecs T fs rest _ stF hwf1 hb
            have hA : (st.data ++ List.replicate (st.pos - st.data.length) 0).length
                = st.pos := by
              simp [List.length_append, List.length_replicate]
              omega
            have hdrop :
                ((st.data ++ List.replicate (st.pos - st.data.length) 0)
                    ++ leBytes w (raw % 2 ^ 32)).drop st.pos
                  = leBytes w (raw % 2 ^ 32) := by
              rw [List.drop_append_of_le_length (by omega)]
              have hnil : (st.data
                  ++ List.replicate (st.pos - st.data.length) 0).drop st.pos = [] :=
                List.drop_eq_nil_of_le (by omega)
              rw [hnil, List.nil_append]
            constructor
            · rw [hext]
              simp only [List.length_append]
              omega
            · rw [hext, extract_of_append _ ext st.pos w (by omega)]
              rw [hd, ← List.append_assoc, hdrop]
              exact List.take_of_length_le (by rw [leBytes_length])
          · rw [if_neg hv] at hbf; simp at hbf
        · rw [if_neg hw] at hbf; simp at hbf
      | succ n =>
        simp only [List.getElem?_cons_succ] at hget
        rw [List.take_succ_cons] at hsz
        simp only [addSizes] at hsz
        obtain ⟨hcs, hle, hwf1, _⟩ := build_advance f st st1 allSecs T fs hwf hbf
        rw [hcs] at hsz
        dsimp only at hsz
        have heq : st.pos + (st1.pos - st.pos) = st1.pos := by omega
        rw [heq] at hsz
        exact ih n st1 stF p hwf1 hb hget hsz

/-- Across the whole sector loop: a dynamic pointer inside the sector keyed
`s` lands at its layout position and survives to the final output. -/
theorem buildSectors_dynamic {S : Type} [DecidableEq S]
    (T : SerialTracker S) (allSecs : List (S × SerialSectorBuilder S))
    (fs : PathStr → Option (List Nat)) (s : S) (sb : SerialSectorBuilder S)
    (i : Nat) (o t : S) (idx w st_s p raw : Nat)
    (hlook : alookup T.sector_offsets s = some st_s)
    (hget : sb.fields[i]? = some (.Dynamic o t idx 1 .Floor w))
    (hsz : addSizes (List.take i sb.fields) st_s T = .ok p)
    (hraw : T.offset_field_from_sector o t idx allSecs T = .ok raw) :
    ∀ (secs : List (S × SerialSectorBuilder S)) (acc : List (S × Nat))
      (off : Nat) (res : List (S × Nat)) (total : Nat) (st st' : Sink),
      SerialTracker.newAux secs acc off = .ok (res, total) →
      TrackerSub res T.sector_offsets →
      alookup secs s = some sb →
      st.pos = off → st.data.length ≤ st.pos →
      buildSectors secs st allSecs T fs = .ok st' →
      (st'.data.drop p).take w = leBytes w (raw % 2 ^ 32) := by
  intro secs
  induction secs with
  | nil =>
    intro acc off res total st st' _ _ hsecs _ _ _
    simp [alookup] at hsecs
  | cons q rest ih =>
    obtain ⟨k0, sb0⟩ := q
    intro acc off res total st st' hn hsub hsecs hpos hwf hb
    simp only [SerialTracker.newAux] at hn
    cases ha : addSizes sb0.fields off ⟨acc⟩ with
    | error e => rw [ha] at hn; simp at hn
    | ok off1 =>
      rw [ha] at hn
      cases hdup : alookup acc k0 with
      | some _ => rw [hdup] at hn; simp at hn
      | none =>
        rw [hdup] at hn
        simp only [buildSectors, SerialSectorBuilder.build] at hb
        cases hbf : buildFields sb0.fields st allSecs T fs with
        | error e => rw [hbf] at hb; simp at hb
        | ok st1 =>
          rw [hbf] at hb
          by_cases hk : k0 = s
          · subst hk
            have hsb0 : sb0 = sb := by simpa [alookup] using hsecs
            subst hsb0
            have hTs : alookup T.sector_offsets k0 = some off := by
              have h1 : TrackerSub (acc ++ [(k0, off)]) res :=
                newAux_sub rest _ off1 hn
              refine hsub k0 off (h1 k0 off ?_)
              rw [alookup_append_none _ hdup]
              simp [alookup]
            have hsts : st_s = off := Option.some.inj (hlook.symm.trans hTs)
            obtain ⟨_, _, hwf1, _⟩ :=
              buildFields_advance allSecs T fs sb0.fields st st1 hwf hbf
            obtain ⟨hlen, hextr⟩ :=
              buildFields_dynamic allSecs T fs o t idx w raw hraw sb0.fields i
                st st1 p hwf hbf hget (by rw [hpos, ← hsts]; exact hsz)
            obtain ⟨_, _, ext, hext⟩ :=
              buildSectors_extends allSecs T fs rest st1 st' hwf1 hb
            rw [hext, extract_of_append st1.data ext p w hlen]
            exact hextr
          · have hsecs' : alookup rest s = some sb := by
              simpa [alookup, hk] using hsecs
            obtain ⟨hsz0, _, hwf1, _⟩ :=
              buildFields_advance allSecs T fs sb0.fields st st1 hwf hbf
            have hsubaccT : TrackerSub acc T.sector_offsets := by
              have h1 : TrackerSub (acc ++ [(k0, off)]) res :=
                newAux_sub rest _ off1 hn
              exact fun k v hv => hsub k v (h1 k v (alookup_append_some _ hv))
            have haT : addSizes sb0.fields off T = .ok off1 :=
              addSizes_mono ⟨acc⟩ T hsubaccT _ _ _ ha
            rw [hpos] at hsz0
            have hst1 : st1.pos = off1 := Except.ok.inj (hsz0.symm.trans haT)
            exact ih (acc ++ [(k0, off)]) off1 res total st1 st' hn hsub hsecs'
              hst1 hwf1 hb

/-- C1 counterexample: the claim says the little-endian integer written for a
`Dynamic(origin, target, index, scale 1, Floor)` field equals
`tracker[target] − tracker[origin] + Σ sizes`.  In this graph a `Fill` pushes
the target sector's start to `2^32`; the resolved pointer is `2^32`, the
build succeeds (the `as u32` cast truncates before the width check), and the
four bytes written decode to 0, not `2^32`. -/
theorem claim_C1_cex :
    SerialBuilder.build (S := Nat)
        ⟨[(0, ⟨[.Dynamic 0 2 0 1 .Floor 4]⟩), (1, ⟨[.Fill 0 4294967296]⟩),
          (2, ⟨[]⟩)]⟩ ⟨[], 0⟩ fsNone
      = .ok ⟨[0, 0, 0, 0], 4294967296⟩
    ∧ SerialTracker.new (S := Nat)
        [(0, ⟨[.Dynamic 0 2 0 1 .Floor 4]⟩), (1, ⟨[.Fill 0 4294967296]⟩), (2, ⟨[]⟩)]
      = .ok ⟨[(0, 0), (1, 4), (2, 4294967296)]⟩
    ∧ SerialTracker.offset_field_from_sector (S := Nat)
        ⟨[(0, 0), (1, 4), (2, 4294967296)]⟩ 0 2 0
        [(0, ⟨[.Dynamic 0 2 0 1 .Floor 4]⟩), (1, ⟨[.Fill 0 4294967296]⟩), (2, ⟨[]⟩)]
        ⟨[(0, 0), (1, 4), (2, 4294967296)]⟩ = .ok 4294967296
    ∧ leValue (List.take 4 (List.drop 0 [0, 0, 0, 0])) = 0
    ∧ (0 : Nat) ≠ 4294967296 :=
  ⟨rfl, rfl, rfl, rfl, by decide⟩

/-- C1 amended: (a) under its preconditions (both keys tracked, target not
before origin, target sector present, index 0 or in range),
`offset_field_from_sector` returns `tracker[to] − tracker[from]` plus the
sizes of the target's fields `0..index` accumulated with the running offset —
exactly as the claim states; (b) for a `Dynamic(origin, target, index,
scale 1, Floor, w)` field in a successful build, the `w` bytes written at the
field's position are the little-endian encoding of that resolved offset
*reduced modulo `2^32`* (the `as u32` cast) — equal to the resolved offset
itself whenever it is below `2^32`. -/
theorem claim_C1_amended {S : Type} [DecidableEq S] :
    (∀ (tr : SerialTracker S) (sectors : List (S × SerialSectorBuilder S))
        (from_sector to_sector : S) (idx fo to_o : Nat)
        (sb : SerialSectorBuilder S),
        alookup tr.sector_offsets from_sector = some fo →
        alookup tr.sector_offsets to_sector = some to_o →
        fo ≤ to_o →
        alookup sectors to_sector = some sb →
        (idx = 0 ∨ idx < sb.fields.length) →
        tr.offset_field_from_sector from_sector to_sector idx sectors tr
          = addSizes (List.take idx sb.fields) (to_o - fo) tr)
    ∧ (∀ (b : SerialBuilder S) (fs : PathStr → Option (List Nat)) (out : Sink)
        (T : SerialTracker S) (s : S) (sb : SerialSectorBuilder S) (i : Nat)
        (o t : S) (idx w st_s p raw : Nat),
        b.build ⟨[], 0⟩ fs = .ok out →
        SerialTracker.new b.sectors = .ok T →
        alookup b.sectors s = some sb →
        alookup T.sector_offsets s = some st_s →
        sb.fields[i]? = some (.Dynamic o t idx 1 .Floor w) →
        addSizes (List.take i sb.fields) st_s T = .ok p →
        T.offset_field_from_sector o t idx b.sectors T = .ok raw →
        (out.data.drop p).take w = leBytes w (raw % 2 ^ 32)) := by
  constructor
  · intro tr sectors from_sector to_sector idx fo to_o sb hf ht hle hsb hidx
    have hcs : checkedSub to_o fo = some (to_o - fo) := by simp [checkedSub, hle]
    have hcond : ¬(sb.fields.length ≤ idx ∧ idx ≠ 0) := by omega
    simp [SerialTracker.offset_field_from_sector, hf, ht, hcs, hsb, hcond]
  · intro b fs out T s sb i o t idx w st_s p raw hbuild hnew hsecs hlook hget
      hsz hraw
    unfold SerialBuilder.build at hbuild
    rw [hnew] at hbuild
    dsimp only at hbuild
    unfold SerialTracker.new at hnew
    cases hn2 : SerialTracker.newAux b.sectors [] 0 with
    | error e => rw [hn2] at hnew; simp at hnew
    | ok pr =>
      obtain ⟨l, total⟩ := pr
      rw [hn2] at hnew
      simp only [Except.ok.injEq] at hnew
      subst hnew
      exact buildSectors_dynamic ⟨l⟩ b.sectors fs s sb i o t idx w st_s p raw
        hlook hget hsz hraw b.sectors [] 0 l total ⟨[], 0⟩ out hn2
        (trackerSub_rfl l) hsecs rfl (by simp) hbuild

/-- Witness for C1 on the repository's cross-sector pointer scenario (strings
shrunk): the first u24 pointer of sector 1 resolves to 6 and its three bytes
at position 1 of the output are `[6, 0, 0]`. -/
theorem claim_C1_witness :
    (SerialTracker.offset_field_from_sector (S := Nat) ⟨[(0, 0), (1, 1), (2, 7)]⟩
        1 2 0
        [(0, ⟨[.U8 255]⟩),
          (1, ⟨[.Dynamic 1 2 0 1 .Floor 3, .Dynamic 1 2 1 1 .Floor 3]⟩),
          (2, ⟨[.String [97], .String [98, 99]]⟩)]
        ⟨[(0, 0), (1, 1), (2, 7)]⟩
      = addSizes
          (List.take 0 (SerialSectorBuilder.fields (S := Nat)
            ⟨[.String [97], .String [98, 99]]⟩))
          (7 - 1) ⟨[(0, 0), (1, 1), (2, 7)]⟩)
    ∧ ((Sink.data ⟨[255, 6, 0, 0, 8, 0, 0, 97, 0, 98, 99, 0], 12⟩).drop 1).take 3
      = leBytes 3 (6 % 2 ^ 32) :=
  ⟨(claim_C1_amended (S := Nat)).1 ⟨[(0, 0), (1, 1), (2, 7)]⟩
      [(0, ⟨[.U8 255]⟩),
        (1, ⟨[.Dynamic 1 2 0 1 .Floor 3, .Dynamic 1 2 1 1 .Floor 3]⟩),
        (2, ⟨[.String [97], .String [98, 99]]⟩)]
      1 2 0 1 7 ⟨[.String [97], .String [98, 99]]⟩
      (by rfl) (by rfl) (by decide) (by rfl) (Or.inl rfl),
    (claim_C1_amended (S := Nat)).2
      ⟨[(0, ⟨[.U8 255]⟩),
        (1, ⟨[.Dynamic 1 2 0 1 .Floor 3, .Dynamic 1 2 1 1 .Floor 3]⟩),
        (2, ⟨[.String [97], .String [98, 99]]⟩)]⟩
      fsNone ⟨[255, 6, 0, 0, 8, 0, 0, 97, 0, 98, 99, 0], 12⟩
      ⟨[(0, 0), (1, 1), (2, 7)]⟩ 1
      ⟨[.Dynamic 1 2 0 1 .Floor 3, .Dynamic 1 2 1 1 .Floor 3]⟩ 0
      1 2 0 3 1 1 6
      (by rfl) (by rfl) (by rfl) (by rfl) (by rfl) (by rfl) (by rfl)⟩

end Serseg
